import Mathlib

/-!
Verification of the Tone.js `Sampler` pitch-resolution and voice-lifecycle
engine (src/Tone/instrument/Sampler portion of the sources), shallowly
embedded in Lean 4.

The buffer-storage collaborator is modelled as the set of loaded keys
(a `Bool`-valued membership function, or a `List Int` inside the state);
the playback collaborator is modelled by an event log of start/stop
signals, and `toSeconds` (the external clock) as the identity on the
supplied time value.
-/

namespace Sampler

/-- Maximum search radius of `_findClosest` (8 octaves), from the source:
`const MAX_INTERVAL = 96`. -/
def MAX_INTERVAL : Nat := 96

/-- One iteration step of the `while (interval < MAX_INTERVAL)` loop of
`Sampler._findClosest`: at radius `i`, check `midi + interval` first
(return `-interval`), then `midi - interval` (return `interval`), else
continue with `interval + 1`.  `r` is the number of iterations still
allowed, i.e. `MAX_INTERVAL - i`. -/
def findClosestLoop (has : Int → Bool) (midi : Int) : Nat → Nat → Option Int
  | _, 0 => none
  | i, r + 1 =>
    if has (midi + (i : Int)) then some (-(i : Int))
    else if has (midi - (i : Int)) then some (i : Int)
    else findClosestLoop has midi (i + 1) r

/-- `Sampler._findClosest`: expanding-radius search for the nearest stored
sample key, radii `0` to `MAX_INTERVAL - 1`; `none` models the thrown
`No available buffers` error. -/
def findClosest (has : Int → Bool) (midi : Int) : Option Int :=
  findClosestLoop has midi 0 MAX_INTERVAL

lemma findClosestLoop_none_iff (has : Int → Bool) (midi : Int) :
    ∀ (r i : Nat), findClosestLoop has midi i r = none ↔
      (∀ j : Nat, i ≤ j → j < i + r →
        has (midi + (j : Int)) = false ∧ has (midi - (j : Int)) = false) := by
  intro r
  induction r with
  | zero =>
    intro i
    simp only [findClosestLoop]
    constructor
    · intro _ j hij hlt; omega
    · intro _; trivial
  | succ r ih =>
    intro i
    simp only [findClosestLoop]
    by_cases h1 : has (midi + (i : Int)) = true
    · simp only [h1, if_true]
      constructor
      · intro h; cases h
      · intro h
        have := (h i (le_refl i) (by omega)).1
        rw [h1] at this; cases this
    · have h1' : has (midi + (i : Int)) = false := by
        cases hb : has (midi + (i : Int)) with
        | true => exact absurd hb h1
        | false => rfl
      by_cases h2 : has (midi - (i : Int)) = true
      · simp only [h1', if_false, h2, if_true, Bool.false_eq_true]
        constructor
        · intro h; cases h
        · intro h
          have := (h i (le_refl i) (by omega)).2
          rw [h2] at this; cases this
      · have h2' : has (midi - (i : Int)) = false := by
          cases hb : has (midi - (i : Int)) with
          | true => exact absurd hb h2
          | false => rfl
        simp only [h1', h2', if_false, Bool.false_eq_true]
        rw [ih (i + 1)]
        constructor
        · intro h j hij hlt
          rcases Nat.eq_or_lt_of_le hij with rfl | hlt'
          · exact ⟨h1', h2'⟩
          · exact h j hlt' (by omega)
        · intro h j hij hlt
          exact h j (by omega) (by omega)

lemma findClosestLoop_some (has : Int → Bool) (midi : Int) :
    ∀ (r i : Nat) (d : Int), findClosestLoop has midi i r = some d →
      i ≤ d.natAbs ∧ d.natAbs < i + r ∧ has (midi - d) = true ∧
      (∀ j : Nat, i ≤ j → j < d.natAbs →
        has (midi + (j : Int)) = false ∧ has (midi - (j : Int)) = false) ∧
      (0 < d → has (midi + d) = false) := by
  intro r
  induction r with
  | zero => intro i d h; exact Option.noConfusion h
  | succ r ih =>
    intro i d h
    simp only [findClosestLoop] at h
    by_cases h1 : has (midi + (i : Int)) = true
    · simp only [h1, if_true] at h
      obtain rfl : -(i : Int) = d := by
        injection h
      have habs : (-(i : Int)).natAbs = i := by
        simp [Int.natAbs_neg]
      refine ⟨by omega, by omega, ?_, ?_, ?_⟩
      · have : midi - -(i : Int) = midi + (i : Int) := by ring
        rw [this]; exact h1
      · intro j hij hlt; omega
      · intro hpos
        exfalso; omega
    · have h1' : has (midi + (i : Int)) = false := by
        cases hb : has (midi + (i : Int)) with
        | true => exact absurd hb h1
        | false => rfl
      rw [h1'] at h
      simp only [Bool.false_eq_true, if_false] at h
      by_cases h2 : has (midi - (i : Int)) = true
      · simp only [h2, if_true] at h
        obtain rfl : (i : Int) = d := by injection h
        have habs : ((i : Int)).natAbs = i := Int.natAbs_ofNat i
        refine ⟨by omega, by omega, h2, ?_, ?_⟩
        · intro j hij hlt; omega
        · intro _; exact h1'
      · have h2' : has (midi - (i : Int)) = false := by
          cases hb : has (midi - (i : Int)) with
          | true => exact absurd hb h2
          | false => rfl
        rw [h2'] at h
        simp only [Bool.false_eq_true, if_false] at h
        obtain ⟨hle, hlt, hres, hmin, htie⟩ := ih (i + 1) d h
        refine ⟨by omega, by omega, hres, ?_, htie⟩
        intro j hij hlt'
        rcases Nat.eq_or_lt_of_le hij with rfl | hlt''
        · exact ⟨h1', h2'⟩
        · exact hmin j hlt'' hlt'

/-- One in-flight `ToneBufferSource`: its identity, the requested midi
pitch it was triggered for, and the resolved sample key whose buffer it
plays. -/
structure Voice where
  vid : Nat
  midi : Int
  sampleKey : Int
deriving DecidableEq, Repr

/-- The mutable state of a `Sampler` instance.  `buffers` is the set of
keys the buffer-storage collaborator has loaded; `activeSources` is the
`_activeSources` map (`Map<MidiNote, ToneBufferSource[]>`) as an
association list; `started` / `stopped` log the `start` / `stop` signals
delivered to playback instances (voice id, time); `disposed` is the flag
set by `dispose`. -/
structure SamplerState where
  buffers : List Int
  activeSources : List (Int × List Voice)
  nextId : Nat
  started : List (Nat × Int)
  stopped : List (Nat × Int)
  disposed : Bool
deriving DecidableEq, Repr

/-- `this._buffers.has(k)`. -/
def hasBuf (s : SamplerState) (k : Int) : Bool :=
  s.buffers.contains k

/-- `Map.get` on the voice-pool association list. -/
def poolGet (pool : List (Int × List Voice)) (k : Int) : Option (List Voice) :=
  match pool with
  | [] => none
  | p :: rest => if p.1 = k then some p.2 else poolGet rest k

/-- `Map.get` with the absent-entry default `[]`. -/
def poolGetD (pool : List (Int × List Voice)) (k : Int) : List Voice :=
  (poolGet pool k).getD []

/-- `Map.set`: replace the entry at `k` if present, else append a new one. -/
def poolSet (pool : List (Int × List Voice)) (k : Int) (v : List Voice) :
    List (Int × List Voice) :=
  match pool with
  | [] => [(k, v)]
  | p :: rest => if p.1 = k then (k, v) :: rest else p :: poolSet rest k v

/-- The message of the error thrown by `_findClosest`. -/
def noBuffersMsg : String :=
  "No available buffers for note"

/-- The message of the assertion in `triggerAttackRelease`. -/
def notesArrayMsg : String :=
  "notes must be an array when duration is array"

/-- The body of the `notes.forEach` loop of `Sampler.triggerAttack` for one
note: resolve the closest sample (throwing if none), build the source on
the resolved buffer, `start` it, and push it onto `_activeSources` under
the requested midi key.  An `Except.error` models the throw, which happens
before any mutation. -/
def attackNote (s : SamplerState) (note time vel : Int) :
    Except String SamplerState :=
  match findClosest (hasBuf s) note with
  | none => Except.error noBuffersMsg
  | some difference =>
    let closestNote := note - difference
    let v : Voice := { vid := s.nextId, midi := note, sampleKey := closestNote }
    let cur := poolGetD s.activeSources note
    Except.ok { s with
      activeSources := poolSet s.activeSources note (cur ++ [v]),
      nextId := s.nextId + 1,
      started := s.started ++ [(s.nextId, time)] }

/-- `Sampler.triggerAttack` on a list of notes (a scalar argument is the
singleton list).  A throw inside `notes.forEach` propagates: the remaining
notes are not processed, the mutations made so far stay, and the error
reaches the caller (the `Option String` component). -/
def triggerAttack (s : SamplerState) (notes : List Int) (time vel : Int) :
    SamplerState × Option String :=
  match notes with
  | [] => (s, none)
  | n :: rest =>
    match attackNote s n time vel with
    | Except.error e => (s, some e)
    | Except.ok s1 => triggerAttack s1 rest time vel

/-- The body of the `notes.forEach` loop of `Sampler.triggerRelease` for
one note: if the pool has a non-empty entry at the midi key, `stop(time)`
every source in it and set the entry to `[]`; otherwise do nothing. -/
def releaseNote (s : SamplerState) (note t : Int) : SamplerState :=
  match poolGet s.activeSources note with
  | none => s
  | some l =>
    if l = [] then s
    else
      { s with
        stopped := s.stopped ++ l.map (fun v => (v.vid, t)),
        activeSources := poolSet s.activeSources note [] }

/-- `Sampler.triggerRelease` on a list of notes (a scalar argument is the
singleton list). -/
def triggerRelease (s : SamplerState) (notes : List Int) (t : Int) :
    SamplerState :=
  match notes with
  | [] => s
  | n :: rest => triggerRelease (releaseNote s n t) rest t

/-- The `while (sources.length) { sources.shift().stop(time) }` drain loop
of `Sampler.releaseAll`: the stop signals it emits, one instance at a
time, in removal order. -/
def drainLoop (t : Int) : List Voice → List (Nat × Int)
  | [] => []
  | v :: rest => (v.vid, t) :: drainLoop t rest

/-- `Sampler.releaseAll`: for every pool entry, drain it with the shift
loop, delivering a stop-at-`t` signal to each instance and leaving the
entry empty. -/
def releaseAll (s : SamplerState) (t : Int) : SamplerState :=
  { s with
    stopped := s.stopped ++ (s.activeSources.map (fun p => drainLoop t p.2)).flatten,
    activeSources := s.activeSources.map (fun p => (p.1, ([] : List Voice))) }

/-- The `notes` argument of the trigger operations: a scalar pitch or an
array of pitches. -/
inductive PitchArg where
  | one (n : Int)
  | many (l : List Int)
deriving DecidableEq, Repr

/-- The `duration` argument of `triggerAttackRelease`: a scalar time or an
array of times. -/
inductive DurationArg where
  | one (d : Int)
  | many (l : List Int)
deriving DecidableEq, Repr

/-- The `if (!Array.isArray(notes)) notes = [notes]` normalisation. -/
def pitchList : PitchArg → List Int
  | .one n => [n]
  | .many l => l

/-- The `(notes as Frequency[]).forEach((note, index) => ...)` loop of the
array-duration branch of `triggerAttackRelease`: release each note at
`time + duration[min(index, duration.length - 1)]`. -/
def releaseEach : SamplerState → List Int → List Int → Int → Nat → SamplerState
  | s, [], _, _, _ => s
  | s, n :: rest, durs, t, idx =>
    releaseEach (triggerRelease s [n] (t + durs.getD (min idx (durs.length - 1)) 0))
      rest durs t (idx + 1)

/-- `Sampler.triggerAttackRelease`: trigger the attack at `time` first;
then, if `duration` is an array, assert that `notes` is an array (the
assertion failure is the second component) and pair durations with notes
by clamped index; otherwise release every note at `time + duration`.  A
throw from the attack phase propagates unchanged. -/
def triggerAttackRelease (s : SamplerState) (notes : PitchArg)
    (dur : DurationArg) (time vel : Int) : SamplerState × Option String :=
  match triggerAttack s (pitchList notes) time vel with
  | (s1, some e) => (s1, some e)
  | (s1, none) =>
    match dur, notes with
    | .many _, .one _ => (s1, some notesArrayMsg)
    | .many durs, .many notesL => (releaseEach s1 notesL durs time 0, none)
    | .one d, _ => (triggerRelease s1 (pitchList notes) (time + d), none)

/-- `Sampler.dispose`: set the disposed flag (from the base class
`dispose`), release the buffer-storage collaborator — modelled from the
spec as clearing the stored keys, since `ToneAudioBuffers.dispose` is an
external collaborator whose code is not among the sources — dispose every
active source, and `clear()` the `_activeSources` map. -/
def dispose (s : SamplerState) : SamplerState :=
  { s with
    disposed := true,
    buffers := [],
    activeSources := [] }

/-- The equal-tempered frequency ratio `intervalToFrequencyRatio`.
Modelled from the spec: the conversion `ratio = 2^(interval/12)` is
implemented in `core/type/Conversions`, an external helper whose code is
not among the sources; the spec fixes its formula. -/
noncomputable def freqRatioOfInterval (i : Int) : ℝ :=
  (2 : ℝ) ^ ((i : ℝ) / 12)

/- ## Helper lemmas -/

lemma poolGet_poolSet_self (pool : List (Int × List Voice)) (k : Int)
    (v : List Voice) : poolGet (poolSet pool k v) k = some v := by
  induction pool with
  | nil => simp [poolSet, poolGet]
  | cons p rest ih =>
    by_cases h : p.1 = k
    · simp [poolSet, poolGet, h]
    · simp only [poolSet, if_neg h, poolGet]
      exact ih

lemma poolGet_poolSet_ne (pool : List (Int × List Voice)) (k q : Int)
    (v : List Voice) (h : q ≠ k) :
    poolGet (poolSet pool k v) q = poolGet pool q := by
  induction pool with
  | nil =>
    simp only [poolSet, poolGet]
    exact if_neg (fun he : k = q => h he.symm)
  | cons p rest ih =>
    by_cases hp : p.1 = k
    · subst hp
      simp only [poolSet, if_pos rfl, poolGet]
      rw [if_neg (fun he : p.1 = q => h he.symm),
        if_neg (fun he : p.1 = q => h he.symm)]
    · simp only [poolSet, if_neg hp, poolGet]
      by_cases hq : p.1 = q
      · rw [if_pos hq, if_pos hq]
      · rw [if_neg hq, if_neg hq]
        exact ih

lemma poolGet_mem (pool : List (Int × List Voice)) (k : Int) (l : List Voice)
    (h : poolGet pool k = some l) : ∃ p, p ∈ pool ∧ p.1 = k ∧ p.2 = l := by
  induction pool with
  | nil => exact Option.noConfusion h
  | cons p rest ih =>
    simp only [poolGet] at h
    by_cases hp : p.1 = k
    · rw [if_pos hp] at h
      exact ⟨p, List.mem_cons_self p rest, hp, by injection h⟩
    · rw [if_neg hp] at h
      obtain ⟨q, hmem, hq1, hq2⟩ := ih h
      exact ⟨q, List.mem_cons_of_mem p hmem, hq1, hq2⟩

lemma poolGet_map_clear (pool : List (Int × List Voice)) (k : Int)
    (l : List Voice) (h : poolGet pool k = some l) :
    poolGet (pool.map (fun p => (p.1, ([] : List Voice)))) k = some [] := by
  induction pool with
  | nil => exact Option.noConfusion h
  | cons p rest ih =>
    simp only [poolGet, List.map_cons] at h ⊢
    by_cases hp : p.1 = k
    · rw [if_pos hp] at h ⊢
    · rw [if_neg hp] at h ⊢
      exact ih h

lemma drainLoop_mem (t : Int) (l : List Voice) (v : Voice) (h : v ∈ l) :
    (v.vid, t) ∈ drainLoop t l := by
  induction l with
  | nil => exact absurd h (List.not_mem_nil v)
  | cons w rest ih =>
    rcases List.mem_cons.mp h with rfl | hmem
    · exact List.mem_cons_self _ _
    · exact List.mem_cons_of_mem _ (ih hmem)

lemma attackNote_ok (s : SamplerState) (note time vel d : Int)
    (hd : findClosest (hasBuf s) note = some d) :
    attackNote s note time vel = Except.ok { s with
      activeSources := poolSet s.activeSources note
        (poolGetD s.activeSources note ++
          [{ vid := s.nextId, midi := note, sampleKey := note - d }]),
      nextId := s.nextId + 1,
      started := s.started ++ [(s.nextId, time)] } := by
  unfold attackNote
  rw [hd]

lemma attackNote_error (s : SamplerState) (note time vel : Int)
    (h : findClosest (hasBuf s) note = none) :
    attackNote s note time vel = Except.error noBuffersMsg := by
  unfold attackNote
  rw [h]

lemma triggerAttack_cons_error (s : SamplerState) (n : Int) (rest : List Int)
    (t vel : Int) (h : findClosest (hasBuf s) n = none) :
    triggerAttack s (n :: rest) t vel = (s, some noBuffersMsg) := by
  simp only [triggerAttack]
  rw [attackNote_error s n t vel h]

lemma triggerAttack_single_ok (s : SamplerState) (X t vel d : Int)
    (hd : findClosest (hasBuf s) X = some d) :
    triggerAttack s [X] t vel =
      ({ s with
          activeSources := poolSet s.activeSources X
            (poolGetD s.activeSources X ++
              [{ vid := s.nextId, midi := X, sampleKey := X - d }]),
          nextId := s.nextId + 1,
          started := s.started ++ [(s.nextId, t)] }, none) := by
  simp only [triggerAttack]
  rw [attackNote_ok s X t vel d hd]

lemma releaseNote_of_get (s : SamplerState) (note t : Int) (l : List Voice)
    (h : poolGet s.activeSources note = some l) (hl : l ≠ []) :
    releaseNote s note t = { s with
      stopped := s.stopped ++ l.map (fun v => (v.vid, t)),
      activeSources := poolSet s.activeSources note [] } := by
  unfold releaseNote
  rw [h]
  exact if_neg hl

lemma release_single_clears (s : SamplerState) (X t1 : Int) (l : List Voice)
    (hl : l ≠ []) (h : poolGet s.activeSources X = some l) :
    poolGet (triggerRelease s [X] t1).activeSources X = some [] := by
  simp only [triggerRelease]
  rw [releaseNote_of_get s X t1 l h hl]
  exact poolGet_poolSet_self _ _ _

lemma findClosest_of_false (has : Int → Bool) (midi : Int)
    (h : ∀ k : Int, has k = false) : findClosest has midi = none := by
  rw [findClosest, findClosestLoop_none_iff]
  intro j _ _
  exact ⟨h _, h _⟩

lemma triggerRelease_empty_pool (s : SamplerState) (notes : List Int)
    (t : Int) (h : s.activeSources = []) : triggerRelease s notes t = s := by
  induction notes with
  | nil => rfl
  | cons n rest ih =>
    have hrel : releaseNote s n t = s := by
      unfold releaseNote
      rw [h]
      simp [poolGet]
    simp only [triggerRelease]
    rw [hrel]
    exact ih

/- ## Concrete states used as witnesses and counterexamples -/

/-- A sampler holding one buffer, at key 60, with nothing yet triggered. -/
def sEx : SamplerState :=
  { buffers := [60], activeSources := [], nextId := 0,
    started := [], stopped := [], disposed := false }

/-- `sEx` after `triggerAttack [60]` at time 0: one active voice at
key 60. -/
def sAtk : SamplerState :=
  { buffers := [60],
    activeSources := [(60, [{ vid := 0, midi := 60, sampleKey := 60 }])],
    nextId := 1, started := [(0, 0)], stopped := [], disposed := false }

/-- A sampler holding one buffer at key 62 and no active sources. -/
def sEx62 : SamplerState :=
  { buffers := [62], activeSources := [], nextId := 0,
    started := [], stopped := [], disposed := false }

/-- `sEx62` after `triggerAttack [60]` at time 0: the request 60 resolved
to the stored key 62, registered under the requested key 60. -/
def sAtk62 : SamplerState :=
  { buffers := [62],
    activeSources := [(60, [{ vid := 0, midi := 60, sampleKey := 62 }])],
    nextId := 1, started := [(0, 0)], stopped := [], disposed := false }

/-- A sampler with three distinct concurrently-sounding pitches. -/
def sPoly : SamplerState :=
  { buffers := [60],
    activeSources :=
      [(60, [{ vid := 0, midi := 60, sampleKey := 60 }]),
       (64, [{ vid := 1, midi := 64, sampleKey := 60 }]),
       (67, [{ vid := 2, midi := 67, sampleKey := 60 }])],
    nextId := 3, started := [(0, 0), (1, 0), (2, 0)], stopped := [],
    disposed := false }

/-- The stored-key set `{60, 64}`, as a membership function. -/
def hasTie : Int → Bool :=
  fun k => decide (k = 60) || decide (k = 64)

/-- The stored-key set `{96}`, as a membership function. -/
def hasAt96 : Int → Bool :=
  fun k => decide (k = 96)

/- ## Claim theorems -/

/-- C1: whenever `_findClosest` resolves, the returned interval `d` points
at a stored key (`midi - d`), that key is at minimal absolute semitone
distance from the request among all stored keys, and on a tie at equal
distance the key above the request wins: if `midi + |d|` is stored then
`d = -|d|`, the interval for a key `|d|` semitones above. -/
theorem findClosest_nearest_tie_above (has : Int → Bool) (midi d : Int)
    (h : findClosest has midi = some d) :
    has (midi - d) = true ∧
    (∀ k : Int, has k = true → d.natAbs ≤ (k - midi).natAbs) ∧
    (has (midi + (d.natAbs : Int)) = true → d = -(d.natAbs : Int)) := by
  obtain ⟨-, -, hres, hmin, htie⟩ :=
    findClosestLoop_some has midi MAX_INTERVAL 0 d h
  refine ⟨hres, ?_, ?_⟩
  · intro k hk
    by_contra hlt
    push_neg at hlt
    have hj := hmin (k - midi).natAbs (Nat.zero_le _) hlt
    rcases Int.natAbs_eq (k - midi) with he | he
    · have heq : midi + (((k - midi).natAbs : Nat) : Int) = k := by omega
      have h1 := hj.1
      rw [heq, hk] at h1
      exact Bool.noConfusion h1
    · have heq : midi - (((k - midi).natAbs : Nat) : Int) = k := by omega
      have h2 := hj.2
      rw [heq, hk] at h2
      exact Bool.noConfusion h2
  · intro hAb
    rcases le_or_lt d 0 with hle | hpos
    · omega
    · have hd : ((d.natAbs : Nat) : Int) = d := Int.natAbs_of_nonneg hpos.le
      rw [hd] at hAb
      have := htie hpos
      rw [this] at hAb
      exact Bool.noConfusion hAb

theorem findClosest_nearest_tie_above_witness :
    hasTie (62 - (-2)) = true ∧
    (∀ k : Int, hasTie k = true → (-2 : Int).natAbs ≤ (k - 62).natAbs) ∧
    (hasTie (62 + (((-2 : Int).natAbs : Nat) : Int)) = true →
      (-2 : Int) = -(((-2 : Int).natAbs : Nat) : Int)) :=
  findClosest_nearest_tie_above hasTie 62 (-2) (by decide)

/-- C2 counterexample: with the single stored key 96 and request 0 — the
nearest stored key at distance exactly `MAX_INTERVAL = 96` — `_findClosest`
throws instead of resolving, though the claim says distance exactly 96
must still resolve successfully. -/
theorem findClosest_at_radius_fails :
    ((96 : Int) - 0).natAbs = MAX_INTERVAL ∧
    hasAt96 96 = true ∧
    findClosest hasAt96 0 = none := by
  refine ⟨by decide, by decide, ?_⟩
  decide

/-- C2 (amended): resolution fails iff every stored key is at distance at
least `MAX_INTERVAL` (96) from the request — a nearest key at distance 95
resolves, one at distance 96 already fails. -/
theorem findClosest_none_iff (has : Int → Bool) (midi : Int) :
    findClosest has midi = none ↔
      ∀ k : Int, has k = true → MAX_INTERVAL ≤ (k - midi).natAbs := by
  have hM : MAX_INTERVAL = 96 := rfl
  rw [findClosest, findClosestLoop_none_iff]
  constructor
  · intro h k hk
    by_contra hlt
    push_neg at hlt
    have hj := h (k - midi).natAbs (Nat.zero_le _) (by omega)
    rcases Int.natAbs_eq (k - midi) with he | he
    · have heq : midi + (((k - midi).natAbs : Nat) : Int) = k := by omega
      have h1 := hj.1
      rw [heq, hk] at h1
      exact Bool.noConfusion h1
    · have heq : midi - (((k - midi).natAbs : Nat) : Int) = k := by omega
      have h2 := hj.2
      rw [heq, hk] at h2
      exact Bool.noConfusion h2
  · intro h j hj0 hj
    constructor
    · cases hb : has (midi + (j : Int)) with
      | false => rfl
      | true =>
        have hk := h (midi + (j : Int)) hb
        omega
    · cases hb : has (midi - (j : Int)) with
      | false => rfl
      | true =>
        have hk := h (midi - (j : Int)) hb
        omega

/-- C3: after a successful `triggerAttack` of pitch `X` at time `t`,
`triggerRelease` of `X` at a later time leaves the voice-pool entry at `X`
empty the moment the call returns: the release call itself sets the entry
to `[]`, with no dependence on fade-out completion or on any instance's
`onended` unregister callback. -/
theorem attack_then_release_clears (s s1 : SamplerState) (X t t1 vel : Int)
    (ht : t < t1) (hA : triggerAttack s [X] t vel = (s1, none)) :
    poolGet (triggerRelease s1 [X] t1).activeSources X = some [] := by
  cases hfc : findClosest (hasBuf s) X with
  | none =>
    rw [triggerAttack_cons_error s X [] t vel hfc] at hA
    simp at hA
  | some d =>
    rw [triggerAttack_single_ok s X t vel d hfc] at hA
    injection hA with h1 h2
    subst h1
    exact release_single_clears _ X t1 _ (by simp) (poolGet_poolSet_self _ _ _)

theorem attack_then_release_clears_witness :
    poolGet (triggerRelease sAtk [60] 1).activeSources 60 = some [] :=
  attack_then_release_clears sEx sAtk 60 0 1 1 (by decide) (by decide)

/-- C4: a successful `triggerAttack` of pitch `X` registers the newly
created voice in the pool under the requested key `X` — appended to the
entry at `X`, carrying the resolved sample key `X - d` — and, when the
resolved key differs from `X`, the pool entry at the resolved key is
untouched, so a later `triggerRelease X` finds the voice under the
caller's key. -/
theorem attack_registers_requested (s s1 : SamplerState) (X t vel d : Int)
    (hd : findClosest (hasBuf s) X = some d)
    (hA : attackNote s X t vel = Except.ok s1) :
    poolGet s1.activeSources X =
      some (poolGetD s.activeSources X ++
        [{ vid := s.nextId, midi := X, sampleKey := X - d }]) ∧
    (X - d ≠ X →
      poolGet s1.activeSources (X - d) = poolGet s.activeSources (X - d)) := by
  rw [attackNote_ok s X t vel d hd] at hA
  obtain rfl : _ = s1 := by injection hA
  constructor
  · exact poolGet_poolSet_self _ _ _
  · intro hne
    exact poolGet_poolSet_ne _ _ _ _ hne

theorem attack_registers_requested_witness :
    poolGet sAtk62.activeSources 60 =
      some (poolGetD sEx62.activeSources 60 ++
        [{ vid := sEx62.nextId, midi := 60, sampleKey := 60 - (-2) }]) ∧
    (60 - (-2 : Int) ≠ 60 →
      poolGet sAtk62.activeSources (60 - (-2)) =
        poolGet sEx62.activeSources (60 - (-2))) :=
  attack_registers_requested sEx62 sAtk62 60 0 1 (-2) (by decide) (by rfl)

/-- C5 counterexample: buffers hold key 60; `triggerAttack [200, 60]`
cannot resolve 200, and the thrown error aborts the `forEach`: pitch 60,
although resolvable (`findClosest` returns `some 0` for it), gets no voice
— the pool stays empty — contradicting the claim that sibling pitches in
the same call are unaffected. -/
theorem attack_abort_cex :
    (triggerAttack sEx [200, 60] 0 1).1.activeSources = [] ∧
    (triggerAttack sEx [200, 60] 0 1).2 = some noBuffersMsg ∧
    findClosest (hasBuf sEx) 60 = some 0 := by
  refine ⟨?_, ?_, by decide⟩ <;> decide

/-- C5 (amended): a resolution failure inside `triggerAttack` aborts the
per-note loop at the failing pitch: every pitch before it in the sequence
still gets its voice (the state reached by processing the prefix is kept),
every pitch after it is skipped, and the error is surfaced synchronously
to the caller. -/
theorem attack_aborts_at_failure (s s1 : SamplerState) (pre post : List Int)
    (n t vel : Int) (hpre : triggerAttack s pre t vel = (s1, none))
    (hn : findClosest (hasBuf s1) n = none) :
    triggerAttack s (pre ++ n :: post) t vel = (s1, some noBuffersMsg) := by
  induction pre generalizing s with
  | nil =>
    simp only [triggerAttack, Prod.mk.injEq] at hpre
    obtain ⟨rfl, -⟩ := hpre
    simp only [List.nil_append, triggerAttack]
    rw [attackNote, hn]
  | cons a as ih =>
    simp only [triggerAttack] at hpre
    cases hAtt : attackNote s a t vel with
    | error e =>
      rw [hAtt] at hpre
      simp only [Prod.mk.injEq] at hpre
      exact Option.noConfusion hpre.2
    | ok s2 =>
      rw [hAtt] at hpre
      rw [List.cons_append]
      simp only [triggerAttack]
      rw [hAtt]
      exact ih s2 hpre

theorem attack_aborts_at_failure_witness :
    triggerAttack sEx ([60] ++ 200 :: [61]) 0 1 = (sAtk, some noBuffersMsg) :=
  attack_aborts_at_failure sEx sAtk [60] [61] 200 0 1 (by decide) (by decide)

/-- C6 counterexample: `triggerAttackRelease` with a scalar pitch and an
array duration does raise the contract-violation error, but not before any
voice is created: the attack phase runs first, so the failing call leaves
a voice created and registered at key 60 — the voice pool is changed. -/
theorem attack_release_not_fail_fast_cex :
    (triggerAttackRelease sEx (PitchArg.one 60) (DurationArg.many [1, 2]) 0 1).2 =
      some notesArrayMsg ∧
    (triggerAttackRelease sEx (PitchArg.one 60) (DurationArg.many [1, 2]) 0 1).1.activeSources =
      [(60, [{ vid := 0, midi := 60, sampleKey := 60 }])] ∧
    sEx.activeSources = [] := by
  refine ⟨?_, ?_, by decide⟩ <;> decide

/-- C6 (amended): `triggerAttackRelease` with a scalar pitch and an array
duration raises the contract-violation error, but only after the attack
phase has completed: the result state is exactly the post-attack state
(the voice for the scalar pitch is already created and registered), and no
release is scheduled. -/
theorem attack_release_scalar_array (s s1 : SamplerState) (n t vel : Int)
    (durs : List Int) (hA : triggerAttack s [n] t vel = (s1, none)) :
    triggerAttackRelease s (PitchArg.one n) (DurationArg.many durs) t vel =
      (s1, some notesArrayMsg) := by
  unfold triggerAttackRelease
  simp only [pitchList]
  rw [hA]

theorem attack_release_scalar_array_witness :
    triggerAttackRelease sEx (PitchArg.one 60) (DurationArg.many [1, 2]) 0 1 =
      (sAtk, some notesArrayMsg) :=
  attack_release_scalar_array sEx sAtk 60 0 1 [1, 2] (by decide)

/-- C7: after `releaseAll t` returns, every voice-pool entry that existed
is empty, and every instance that was registered in any entry has received
a stop-at-`t` signal — the signals coming from the one-at-a-time shift
drain loop (`drainLoop`) applied to each collection. -/
theorem release_all_empties_and_stops (s : SamplerState) (t k : Int)
    (l : List Voice) (v : Voice)
    (hkl : poolGet s.activeSources k = some l) (hv : v ∈ l) :
    poolGet (releaseAll s t).activeSources k = some [] ∧
    (v.vid, t) ∈ (releaseAll s t).stopped := by
  constructor
  · exact poolGet_map_clear s.activeSources k l hkl
  · obtain ⟨p, hpmem, hp1, hp2⟩ := poolGet_mem s.activeSources k l hkl
    simp only [releaseAll, List.mem_append]
    refine Or.inr (List.mem_flatten.mpr ⟨drainLoop t l, ?_, drainLoop_mem t l v hv⟩)
    exact List.mem_map.mpr ⟨p, hpmem, by rw [hp2]⟩

theorem release_all_empties_and_stops_witness :
    poolGet (releaseAll sPoly 5).activeSources 64 = some [] ∧
    ((1, 5) : Nat × Int) ∈ (releaseAll sPoly 5).stopped :=
  release_all_empties_and_stops sPoly 5 64
    [{ vid := 1, midi := 64, sampleKey := 60 }]
    { vid := 1, midi := 64, sampleKey := 60 } (by decide) (by decide)

/-- C8 counterexample: after `dispose`, a trigger operation does not raise
a use-after-dispose error: `triggerRelease` on the disposed sampler
returns normally as a pure no-op (it has no error outcome at all), and
`triggerAttack` raises the resolution-failure message — not a
use-after-dispose error — because the buffers were released. -/
theorem dispose_no_use_after_dispose_error_cex :
    triggerRelease (dispose sAtk) [60] 0 = dispose sAtk ∧
    (triggerAttack (dispose sAtk) [60] 0 1).2 = some noBuffersMsg := by
  refine ⟨?_, ?_⟩ <;> decide

/-- C8 (amended): after `dispose`, trigger operations create and register
no voice and leave the remaining state uncorrupted, but no dedicated
use-after-dispose error exists: `triggerRelease` is a silent no-op on the
cleared pool, and `triggerAttack` fails with the resolution-failure error
(the buffer-storage collaborator was released), its state unchanged. -/
theorem dispose_trigger_ops (s : SamplerState) (notes : List Int)
    (t vel : Int) (hne : notes ≠ []) :
    triggerRelease (dispose s) notes t = dispose s ∧
    triggerAttack (dispose s) notes t vel = (dispose s, some noBuffersMsg) := by
  constructor
  · exact triggerRelease_empty_pool (dispose s) notes t rfl
  · cases notes with
    | nil => exact absurd rfl hne
    | cons n rest =>
      refine triggerAttack_cons_error (dispose s) n rest t vel ?_
      refine findClosest_of_false _ n (fun k => ?_)
      rfl

theorem dispose_trigger_ops_witness :
    triggerRelease (dispose sEx) [60] 0 = dispose sEx ∧
    triggerAttack (dispose sEx) [60] 0 1 = (dispose sEx, some noBuffersMsg) :=
  dispose_trigger_ops sEx [60] 0 1 (by decide)

/-- C9: the playback ratio `2^(i/12)` used by `triggerAttack` is strictly
positive for every integer interval `i`, equals 1 exactly when `i = 0`,
and satisfies the exact round-trip identity
`ratio i * ratio (-i) = 1` in the real-number model. -/
theorem freq_ratio_props (i : Int) :
    0 < freqRatioOfInterval i ∧
    (freqRatioOfInterval i = 1 ↔ i = 0) ∧
    freqRatioOfInterval i * freqRatioOfInterval (-i) = 1 := by
  have h2 : (0 : ℝ) < 2 := by norm_num
  refine ⟨Real.rpow_pos_of_pos h2 _, ?_, ?_⟩
  · unfold freqRatioOfInterval
    rw [show (1 : ℝ) = (2 : ℝ) ^ (0 : ℝ) from (Real.rpow_zero 2).symm]
    rw [le_antisymm_iff, Real.rpow_le_rpow_left_iff (by norm_num : (1 : ℝ) < 2),
      Real.rpow_le_rpow_left_iff (by norm_num : (1 : ℝ) < 2), ← le_antisymm_iff]
    constructor
    · intro h
      have : (i : ℝ) = 0 := by linarith [(div_eq_zero_iff.mp h)]
      exact_mod_cast this
    · intro h
      rw [h]
      norm_num
  · unfold freqRatioOfInterval
    rw [← Real.rpow_add h2]
    have hz : (i : ℝ) / 12 + ((-i : Int) : ℝ) / 12 = 0 := by
      push_cast
      ring
    rw [hz, Real.rpow_zero]

/-- C10: `triggerAttack` and `triggerRelease` called with an empty
sequence of pitches return normally, raise no error, create and stop no
voice, and leave the sampler state — voice pool included — unchanged. -/
theorem trigger_empty_noop (s : SamplerState) (t vel : Int) :
    triggerAttack s [] t vel = (s, none) ∧ triggerRelease s [] t = s :=
  ⟨rfl, rfl⟩

end Sampler
